import Mathlib

/-!
Verification development for the forest fly-through renderer
(`src/unnamed/part_000`, the theme-aware variant, and its twin
`src/bg-worker.js`).

The JavaScript source is shallowly embedded here:

* JS floating-point numbers are modelled as exact rationals (`ℚ`); none of
  the claims under study depends on floating-point rounding.
* The 32-bit integer scrambling of the mulberry32 PRNG is modelled on `ℕ`
  with explicit `% 2^32` reductions, viewing every JS int32/uint32 value by
  its 32-bit pattern (JS `|0`, `>>> 0`, `^`, `|`, `Math.imul` all operate on
  that pattern; `a >>> k` is division by `2^k` on the pattern).
* Colour strings such as `hsl(h,s%,l%)` carry three (resp. four) numeric
  channels; they are modelled by the tuples of those channels, dropping the
  `toFixed` text formatting which none of the claims concerns.
* The opaque `CanvasGradient` objects and the drawing context are modelled
  by rebuild counters on an engine state (the claims about them concern
  only when they are rebuilt).
* In-place mutation of the `trees` array becomes explicit state passing;
  the per-tree loop body of `update` mutates each element independently,
  so it is a `List.map`.
-/

/- ═══════════ Tunables (src/unnamed/part_000 lines 34-59) ═══════════ -/

def DEPTH_FAR : ℚ := 55
def DEPTH_NEAR : ℚ := 8
def HALF_W : ℚ := 20
def SPEED_BASE : ℚ := 0.004
def X_SPACING : ℚ := 3.6
def Z_SPACING : ℚ := 4.8
def X_JITTER : ℚ := X_SPACING * 0.3
def RECYCLE_DELAY_MS : ℚ := 1000
def NEAR_FADE_START_Z : ℚ := 7.2
def NEAR_FADE_END_Z : ℚ := 1.1
def CENTER_FADE_BAND_X : ℚ := 1.35

def INV_DEPTH_RANGE : ℚ := 1 / (DEPTH_FAR - DEPTH_NEAR)
def FAR_FADE_INV : ℚ := 1 / (DEPTH_FAR * 0.18)
def NEAR_FADE_INV : ℚ := 1 / (NEAR_FADE_START_Z - NEAR_FADE_END_Z)
def INV_CENTER_FADE : ℚ := 1 / CENTER_FADE_BAND_X
def VP_DIVISOR : ℚ := DEPTH_FAR * 4
def DEPTH_QUANT : ℕ := 11

def THEME_DURATION : ℚ := 1000

/- ═══════════ Helpers (lines 126-131) ═══════════ -/

/-- Embedding of `clamp01(v)`: `v < 0 ? 0 : v > 1 ? 1 : v`. -/
def clamp01 (v : ℚ) : ℚ := if v < 0 then 0 else if 1 < v then 1 else v

/-- Embedding of `easeInOut01(u)`: `u * u * (3 - 2 * u)`. -/
def easeInOut01 (u : ℚ) : ℚ := u * u * (3 - 2 * u)

/- ═══════════ Seeded PRNG, mulberry32 (lines 109-121) ═══════════ -/

def TWO32 : ℕ := 4294967296

/-- Embedding of `Math.imul(a, b)` on 32-bit patterns. -/
def imul32 (a b : ℕ) : ℕ := (a * b) % TWO32

/-- Body of the mulberry32 closure after the seed has been advanced:
`let t = Math.imul(seed ^ (seed >>> 15), 1 | seed);
 t = (t + Math.imul(t ^ (t >>> 7), 61 | t)) ^ t;
 return ((t ^ (t >>> 14)) >>> 0) / 4294967296` (numerator here). -/
def mulberryScramble (s : ℕ) : ℕ :=
  let t1 := imul32 (Nat.xor s (s / 2 ^ 15)) (Nat.lor 1 s)
  let t2 := Nat.xor ((t1 + imul32 (Nat.xor t1 (t1 / 2 ^ 7)) (Nat.lor 61 t1)) % TWO32) t1
  (Nat.xor t2 (t2 / 2 ^ 14)) % TWO32

/-- Seed advance of mulberry32: `seed = (seed + 0x6d2b79f5) | 0`. -/
def mulberrySeedStep (s : ℕ) : ℕ := (s + 0x6d2b79f5) % TWO32

/-- Seed state after `n` advances, starting from `seed |= 0`. -/
def mulberryState (seed : ℕ) : ℕ → ℕ
  | 0 => seed % TWO32
  | n + 1 => mulberrySeedStep (mulberryState seed n)

/-- The deterministic output stream of `mulberry32(seed)`: call number `n`
(0-based) first advances the seed, then scrambles and divides by `2^32`. -/
def mulberryStream (seed : ℕ) (n : ℕ) : ℚ :=
  (mulberryScramble (mulberryState seed (n + 1)) : ℚ) / (TWO32 : ℚ)

def FOREST_SEED : ℕ := 0xabcd1234

/-- Value of `randS(a, b) = rng() * (b - a) + a` when the `rng()` call
returned `r`. -/
def randSv (r a b : ℚ) : ℚ := r * (b - a) + a

/- ═══════════ Theme model (lines 64-229) ═══════════ -/

/-- An RGB colour: the three numeric channels of an entry of `theme.sky`. -/
abbrev Color3 := ℚ × ℚ × ℚ

/-- An RGBA colour: the four numeric channels of an entry of `theme.fog`. -/
abbrev Color4 := ℚ × ℚ × ℚ × ℚ

/-- A theme palette, the shape handled by `cloneTheme` / `lerpTheme`. -/
structure Theme where
  sky : List Color3
  fog : List Color4
  treeHueMin : ℚ
  treeHueMax : ℚ
  treeSat : ℚ
  treeLightMin : ℚ
  treeLightMax : ℚ
deriving DecidableEq

/-- Embedding of `DEFAULT_THEME` (lines 64-84). -/
def DEFAULT_THEME : Theme :=
  { sky := [(184, 242, 168), (114, 228, 184), (56, 184, 216),
            (34, 85, 196), (30, 52, 160), (16, 11, 88)]
    fog := [(100, 210, 235, 0.1), (55, 135, 220, 0.2),
            (55, 130, 215, 0.2), (28, 65, 170, 0.1)]
    treeHueMin := 174
    treeHueMax := 216
    treeSat := 58
    treeLightMin := 36
    treeLightMax := 52 }

/-- Channelwise interpolation of one sky colour inside `lerpTheme`. -/
def lerpC3 (t : ℚ) (x y : Color3) : Color3 :=
  (x.1 + (y.1 - x.1) * t, x.2.1 + (y.2.1 - x.2.1) * t, x.2.2 + (y.2.2 - x.2.2) * t)

/-- Channelwise interpolation of one fog colour (with alpha) inside
`lerpTheme`. -/
def lerpC4 (t : ℚ) (x y : Color4) : Color4 :=
  (x.1 + (y.1 - x.1) * t, x.2.1 + (y.2.1 - x.2.1) * t,
   x.2.2.1 + (y.2.2.1 - x.2.2.1) * t, x.2.2.2 + (y.2.2.2 - x.2.2.2) * t)

/-- Embedding of `lerpTheme(a, b, t)` (lines 183-210).  The source loops
over `a.sky.length` and `a.fog.length` indexing into `b`; `zipWith` agrees
with it whenever `b` has at least the shape of `a` (the equal-shape case
every claim is about). -/
def lerpTheme (a b : Theme) (t : ℚ) : Theme :=
  { sky := List.zipWith (lerpC3 t) a.sky b.sky
    fog := List.zipWith (lerpC4 t) a.fog b.fog
    treeHueMin := a.treeHueMin + (b.treeHueMin - a.treeHueMin) * t
    treeHueMax := a.treeHueMax + (b.treeHueMax - a.treeHueMax) * t
    treeSat := a.treeSat + (b.treeSat - a.treeSat) * t
    treeLightMin := a.treeLightMin + (b.treeLightMin - a.treeLightMin) * t
    treeLightMax := a.treeLightMax + (b.treeLightMax - a.treeLightMax) * t }

/- ═══════════ Tree records (lines 278-345) ═══════════ -/

/-- A tree record of the entity pool.  `solidColors` carries the numeric
channels of the pre-baked `hsl(...)` strings, `gradStops` those of the
pre-baked `hsla(...)` gradient-stop strings. -/
structure TreeRec where
  x : ℚ
  z : ℚ
  trunkW : ℚ
  hueRng : ℚ
  lit : ℚ
  fade : ℚ
  recycleWait : ℚ
  solidColors : List Color3
  gradStops : List Color4
deriving DecidableEq

/-- The quantised solid-body colours baked in `buildForest` /
`rebuildTreeColors`: for `d < DEPTH_QUANT`,
`l = lMin + (d / (DEPTH_QUANT - 1)) * (lMax - lMin)` at the tree's hue and
the theme's saturation. -/
def solidColorsFor (th : Theme) (hue : ℚ) : List Color3 :=
  (List.range DEPTH_QUANT).map fun d =>
    (hue, th.treeSat,
      th.treeLightMin + ((d : ℚ) / ((DEPTH_QUANT : ℚ) - 1)) * (th.treeLightMax - th.treeLightMin))

/-- The four gradient colour stops baked in `buildForest` /
`rebuildTreeColors`. -/
def gradStopsFor (th : Theme) (hue : ℚ) : List Color4 :=
  let g0 := min 90 (th.treeLightMax + 28)
  let g1 := min 72 (th.treeLightMax + 16)
  let g2 := min 54 (th.treeLightMax + 6)
  let g3 := max 8 (th.treeLightMin - 4)
  [(hue - 14, 86, g0, 0.62), (hue - 7, 76, g1, 0.35),
   (hue, 66, g2, 0.11), (hue + 10, 56, g3, 0)]

/-- One tree record as pushed by the inner loop of `buildForest`, given the
five PRNG draws it consumes, in source order: `r0` the x jitter draw, `r1`
the z jitter draw, `r2` the trunk width draw, `r3` the `hueRng` draw and
`r4` the lit draw. -/
def mkTree (th : Theme) (cx : ℚ) (row : ℕ) (r0 r1 r2 r3 r4 : ℚ) : TreeRec :=
  let hue := th.treeHueMin + r3 * (th.treeHueMax - th.treeHueMin)
  { x := cx + randSv r0 (-X_JITTER) X_JITTER
    z := ((row : ℚ) + 1) * Z_SPACING + randSv r1 0 (Z_SPACING * 0.3)
    trunkW := randSv r2 0.55 1.1
    hueRng := r3
    lit := randSv r4 0.55 1.0
    fade := 1
    recycleWait := 0
    solidColors := solidColorsFor th hue
    gradStops := gradStopsFor th hue }

/-- Embedding of the column loop of `buildForest`:
`for (let x = 0; x <= HALF_W + 0.01; x += X_SPACING) { cols.push(x); if (x > 0) cols.push(-x); }`. -/
def buildCols (x : ℚ) : List ℚ :=
  if h : x ≤ HALF_W + 0.01 then
    (x :: if 0 < x then [-x] else []) ++ buildCols (x + X_SPACING)
  else []
termination_by (⌈(HALF_W + 0.01 - x) / X_SPACING⌉ + 1).toNat
decreasing_by
  have hstep : (HALF_W + 0.01 - (x + X_SPACING)) / X_SPACING
      = (HALF_W + 0.01 - x) / X_SPACING - 1 := by
    rw [div_sub_one (by norm_num [X_SPACING])]
    ring_nf
  have hc : (0 : ℚ) ≤ (HALF_W + 0.01 - x) / X_SPACING := by
    apply div_nonneg
    · simp only [HALF_W] at h ⊢
      linarith
    · norm_num [X_SPACING]
  have h2 : (0 : ℤ) ≤ ⌈(HALF_W + 0.01 - x) / X_SPACING⌉ := Int.ceil_nonneg hc
  have h3 : ⌈(HALF_W + 0.01 - (x + X_SPACING)) / X_SPACING⌉
      = ⌈(HALF_W + 0.01 - x) / X_SPACING⌉ - 1 := by
    rw [hstep, Int.ceil_sub_one]
  omega

def colsList : List ℚ := buildCols 0

/-- Embedding of `rowsPerCol = Math.ceil(DEPTH_FAR / Z_SPACING)`. -/
def rowsPerCol : ℕ := (⌈DEPTH_FAR / Z_SPACING⌉).toNat

/-- The row loop of `buildForest` for one column `cx`, threading the PRNG
as a stream `f` with next index `idx`; each tree consumes five draws in the
source order x, z, trunkW, hue, lit. -/
def buildRows (f : ℕ → ℚ) (th : Theme) (cx : ℚ) (row : ℕ) : ℕ → ℕ → List TreeRec
  | _, 0 => []
  | idx, n + 1 =>
    mkTree th cx row (f idx) (f (idx + 1)) (f (idx + 2)) (f (idx + 3)) (f (idx + 4)) ::
      buildRows f th cx (row + 1) (idx + 5) n

/-- The column loop of `buildForest`, threading the PRNG stream index. -/
def buildTrees (f : ℕ → ℚ) (th : Theme) : List ℚ → ℕ → List TreeRec
  | [], _ => []
  | cx :: cs, idx =>
    buildRows f th cx 0 idx rowsPerCol ++ buildTrees f th cs (idx + 5 * rowsPerCol)

/-- Descending-by-z relation used by the final
`trees.sort((a, b) => b.z - a.z)` of `buildForest` (a stable comparison
sort in every modern engine) and by the spec side of the depth-sort claim. -/
abbrev zGE (a b : TreeRec) : Prop := b.z ≤ a.z

instance : DecidableRel zGE := fun a b => inferInstanceAs (Decidable (b.z ≤ a.z))

instance : IsTotal TreeRec zGE := ⟨fun a b => le_total b.z a.z⟩

instance : IsTrans TreeRec zGE := ⟨fun _ _ _ hab hbc => le_trans hbc hab⟩

/-- Embedding of `buildForest()` as a function of the PRNG stream and the
current theme snapshot: generate all trees column by column, then sort
descending by z. -/
def buildForestStream (f : ℕ → ℚ) (th : Theme) : List TreeRec :=
  List.insertionSort zGE (buildTrees f th colsList 0)

/- ═══════════ Insertion sort, sortByZDesc (lines 133-145) ═══════════ -/

/-- The inner while loop of `sortByZDesc` on the reversed sorted prefix:
walking from the right, elements with `z < key.z` are shifted past the key;
the key lands right after the first element with `z ≥ key.z`.  Input and
output are the prefix in reversed order. -/
def insRevAux (key : TreeRec) : List TreeRec → List TreeRec
  | [] => [key]
  | b :: rest => if b.z < key.z then b :: insRevAux key rest else key :: b :: rest

/-- One outer-loop step of `sortByZDesc`: insert `arr[i]` into the sorted
prefix `arr[0..i-1]`. -/
def insertShift (key : TreeRec) (pre : List TreeRec) : List TreeRec :=
  (insRevAux key pre.reverse).reverse

/-- Embedding of `sortByZDesc(arr)`: the outer loop runs `i = 1..n-1`,
each step inserting `arr[i]` into the already-sorted prefix. -/
def sortByZDesc (arr : List TreeRec) : List TreeRec :=
  arr.foldl (fun acc key => insertShift key acc) []

/-- Insertion into a descending-sorted list before the first element with
strictly smaller `z` — what `insertShift` amounts to on sorted prefixes. -/
def orderedInsZ (key : TreeRec) : List TreeRec → List TreeRec
  | [] => [key]
  | b :: l => if b.z < key.z then key :: b :: l else b :: orderedInsZ key l

/- ═══════════ Per-tree update (lines 488-511) ═══════════ -/

/-- The body of the per-tree loop of `update(dt, t)`:
`tr.z -= move; if (tr.fade < 1) tr.fade = Math.min(1, tr.fade + fadeDelta);
 if (tr.z < 1.1) { tr.recycleWait += dt; if (tr.recycleWait >= RECYCLE_DELAY_MS)
 { tr.z += recOffset; tr.fade = 0; tr.recycleWait = 0; } } else tr.recycleWait = 0;`
with `move = SPEED_BASE * dt`, `recOffset = rowsPerCol * Z_SPACING`,
`fadeDelta = dt * 0.0015`. -/
def treeStep (dt : ℚ) (tr : TreeRec) : TreeRec :=
  let z1 := tr.z - SPEED_BASE * dt
  let fade1 := if tr.fade < 1 then min 1 (tr.fade + dt * 0.0015) else tr.fade
  if z1 < 1.1 then
    let w := tr.recycleWait + dt
    if RECYCLE_DELAY_MS ≤ w then
      { tr with z := z1 + (rowsPerCol : ℚ) * Z_SPACING, fade := 0, recycleWait := 0 }
    else
      { tr with z := z1, fade := fade1, recycleWait := w }
  else
    { tr with z := z1, fade := fade1, recycleWait := 0 }

/-- The tree part of `update(dt, t)`: move and recycle every tree, then
keep the pool sorted with `sortByZDesc`. -/
def updateTrees (dt : ℚ) (trs : List TreeRec) : List TreeRec :=
  sortByZDesc (trs.map (treeStep dt))

/-- Repeated updates of the pool with a fixed `dt` per tick. -/
def iterPool (n : ℕ) (dt : ℚ) (trs : List TreeRec) : List TreeRec :=
  match n with
  | 0 => trs
  | n + 1 => iterPool n dt (updateTrees dt trs)

/- ═══════════ Engine state (theme transition, resize, colour caches) ═══════ -/

/-- The module-level mutable state of `part_000` that the cache-rebuild and
theme-transition claims are about.  The rebuild counters record every call
of `rebuildTreeColors` (solid colour strings), `rebuildTreeGradients`
(cached per-tree `CanvasGradient` objects) and `buildSceneGradients`
(whole-scene gradients); the gradient objects themselves are opaque canvas
resources and are modelled by their rebuild counts. -/
structure Engine where
  transitioning : Bool
  themeStartT : ℚ
  themeFrom : Theme
  themeTo : Theme
  cur : Theme
  trees : List TreeRec
  lastT : ℚ
  W : ℚ
  H : ℚ
  fov : ℚ
  topY : ℚ
  bottomY : ℚ
  solidRebuilds : ℕ
  gradRebuilds : ℕ
  sceneRebuilds : ℕ
deriving DecidableEq

/-- Embedding of `rebuildTreeColors()` (lines 240-273): recompute every
tree's solid colours and gradient stops from the current theme snapshot
(the hue is re-derived from the tree's immutable `hueRng`). -/
def rebuildTreeColors (s : Engine) : Engine :=
  { s with
    trees := s.trees.map fun tr =>
      let hue := s.cur.treeHueMin + tr.hueRng * (s.cur.treeHueMax - s.cur.treeHueMin)
      { tr with solidColors := solidColorsFor s.cur hue, gradStops := gradStopsFor s.cur hue }
    solidRebuilds := s.solidRebuilds + 1 }

/-- Embedding of `rebuildTreeGradients()` (lines 369-379): rebuild every
tree's cached `CanvasGradient` from `topY`, `bottomY` and its gradient
stops; modelled by the gradient rebuild counter. -/
def rebuildTreeGradients (s : Engine) : Engine :=
  { s with gradRebuilds := s.gradRebuilds + 1 }

/-- Embedding of `buildSceneGradients()` (lines 350-366), modelled by the
scene gradient rebuild counter. -/
def buildSceneGradients (s : Engine) : Engine :=
  { s with sceneRebuilds := s.sceneRebuilds + 1 }

/-- Embedding of `rebuildAllColors()` (lines 232-237): scene gradients,
then per-tree solid colours, then per-tree gradient objects. -/
def rebuildAllColors (s : Engine) : Engine :=
  rebuildTreeGradients (rebuildTreeColors (buildSceneGradients s))

/-- Embedding of `setThemeTarget(theme)` (lines 212-217): snapshot `cur`,
store the target, record the start time, mark active.  No rebuild happens
here; `cloneTheme` is the identity under value semantics. -/
def setThemeTarget (theme : Theme) (now : ℚ) (s : Engine) : Engine :=
  { s with themeFrom := s.cur, themeTo := theme, themeStartT := now, transitioning := true }

/-- Embedding of `updateThemeTransition(ts)` (lines 219-229): when a
transition is active, ease the clamped progress, interpolate the snapshot,
rebuild all colour caches, and deactivate once the eased progress reaches 1. -/
def updateThemeTransition (ts : ℚ) (s : Engine) : Engine :=
  if s.transitioning = false then s
  else
    let t := easeInOut01 (clamp01 ((ts - s.themeStartT) / THEME_DURATION))
    let s1 := rebuildAllColors { s with cur := lerpTheme s.themeFrom s.themeTo t }
    if 1 ≤ t then { s1 with transitioning := false } else s1

/-- Embedding of `handleResize(w, h, dpr)` (lines 384-402): store the new
viewport, recompute `fov` and the clip lines, and rebuild all
colour-dependent objects. -/
def handleResize (w h : ℚ) (s : Engine) : Engine :=
  rebuildAllColors
    { s with W := w, H := h, fov := max w h * 1.55,
             topY := -(h * 0.12), bottomY := h * 1.12 }

/-- Embedding of one `frame(ts)` tick (lines 518-542) restricted to the
state the claims concern: compute the clamped `dt`, advance the theme
transition, then run `update(dt, ts)` on the pool.  The camera yaw and the
draw calls do not touch the colour caches or the pool state. -/
def frameStep (ts : ℚ) (s : Engine) : Engine :=
  let dt := if s.lastT = 0 then 16 else min (ts - s.lastT) 48
  let s1 := updateThemeTransition ts { s with lastT := ts }
  { s1 with trees := updateTrees dt s1.trees }

/-- The three external events the engine reacts to: a scheduler tick, a
resize message and a theme message. -/
inductive Ev where
  | tick (ts : ℚ)
  | resize (w h : ℚ)
  | theme (th : Theme) (ts : ℚ)

/-- Event dispatch, mirroring the worker `onmessage` handler plus the
frame scheduler. -/
def engineStep (e : Ev) (s : Engine) : Engine :=
  match e with
  | Ev.tick ts => frameStep ts s
  | Ev.resize w h => handleResize w h s
  | Ev.theme th ts => setThemeTarget th ts s

/-- How many colour-cache rebuilds an event performs: one on every resize,
one on a tick while a theme transition is active, none otherwise. -/
def evRebuilds (e : Ev) (s : Engine) : ℕ :=
  match e with
  | Ev.tick _ => if s.transitioning then 1 else 0
  | Ev.resize _ _ => 1
  | Ev.theme _ _ => 0

/- ═══════════ Tree drawing (lines 407-463) ═══════════ -/

/-- The combined alpha computed in `drawTree`:
`alpha = fade * (nearAlpha + (1 - nearAlpha) * sideKeep) * farAlpha`. -/
def drawAlpha (fade dx rz : ℚ) : ℚ :=
  let farAlpha := clamp01 ((DEPTH_FAR - rz) * FAR_FADE_INV)
  let nearT := clamp01 ((rz - NEAR_FADE_END_Z) * NEAR_FADE_INV)
  let nearAlpha := easeInOut01 nearT
  let absDx := if dx < 0 then -dx else dx
  let sideKeep := easeInOut01 (clamp01 (absDx * INV_CENTER_FADE))
  fade * (nearAlpha + (1 - nearAlpha) * sideKeep) * farAlpha

/-- The values `drawTree` computes for a tree it actually draws. -/
structure DrawData where
  rz : ℚ
  depth : ℚ
  alpha : ℚ
  dIdx : ℤ
  screenX : ℚ
  baseW : ℚ
  vx : ℚ
  topW : ℚ
deriving DecidableEq

/-- Embedding of `drawTree(t)` (lines 407-463) up to the two canvas fill
calls: `none` on each early return (behind the near clip, nearly
transparent, off screen), otherwise the projected quantities, including
the quantised colour index `dIdx = (depth * (DEPTH_QUANT - 1) + 0.5) | 0`.
The `| 0` truncation equals `Int.floor` here because its operand is
nonnegative (`depth ≥ 0`). -/
def drawTree (camx fov yawCos yawSin Wv : ℚ) (t : TreeRec) : Option DrawData :=
  let rx := t.x * yawCos - t.z * yawSin
  let rz := t.x * yawSin + t.z * yawCos
  if rz ≤ 0.5 then none
  else
    let depth := clamp01 (1 - (rz - DEPTH_NEAR) * INV_DEPTH_RANGE)
    let dx := rx - camx
    let alpha := drawAlpha t.fade dx rz
    if alpha ≤ 0.002 then none
    else
      let scale := fov / rz
      let screenX := Wv * 0.5 + dx * scale
      let baseW := t.trunkW * scale
      let vScale := fov / VP_DIVISOR
      let vx := Wv * 0.5 + dx * vScale
      let raw := baseW * 0.022
      let topW := if raw < 0.6 then 0.6 else raw
      let minX := if vx - topW < screenX - baseW then vx - topW else screenX - baseW
      let maxX := if screenX + baseW < vx + topW then vx + topW else screenX + baseW
      if maxX < 0 ∨ Wv < minX then none
      else
        some { rz := rz, depth := depth, alpha := alpha,
               dIdx := ⌊depth * ((DEPTH_QUANT : ℚ) - 1) + 0.5⌋,
               screenX := screenX, baseW := baseW, vx := vx, topW := topW }

/- ═══════════ Predicates and concrete inputs used by the claims ═══════════ -/

/-- The PRNG stream always yields values in `[0, 1)`, as `mulberry32`
does. -/
abbrev streamBounds (f : ℕ → ℚ) : Prop := ∀ n, 0 ≤ f n ∧ f n < 1

/-- Inductive invariant of the per-tree update under frame-clamped `dt`
(`dt ≤ 48`): the recycle-wait timer is a nonnegative accumulation below the
recycle delay, and the depth is bounded below in terms of it. -/
abbrev TreeInv (tr : TreeRec) : Prop :=
  0 ≤ tr.recycleWait ∧ tr.recycleWait < RECYCLE_DELAY_MS ∧
    NEAR_FADE_END_Z - SPEED_BASE * (tr.recycleWait + 48) < tr.z

/-- A value lies (inclusively) between two channel endpoints. -/
abbrev chanBetween (x y v : ℚ) : Prop := min x y ≤ v ∧ v ≤ max x y

/-- Channelwise betweenness for an RGB colour. -/
abbrev c3Between (x y v : Color3) : Prop :=
  chanBetween x.1 y.1 v.1 ∧ chanBetween x.2.1 y.2.1 v.2.1 ∧ chanBetween x.2.2 y.2.2 v.2.2

/-- Channelwise betweenness for an RGBA colour. -/
abbrev c4Between (x y v : Color4) : Prop :=
  chanBetween x.1 y.1 v.1 ∧ chanBetween x.2.1 y.2.1 v.2.1 ∧
    chanBetween x.2.2.1 y.2.2.1 v.2.2.1 ∧ chanBetween x.2.2.2 y.2.2.2 v.2.2.2

/-- Every channel of every colour and every scalar bound of `c` lies
between the corresponding values of `a` and `b` (inclusive). -/
abbrev themeBetween (a b c : Theme) : Prop :=
  (∀ i, i < a.sky.length →
    c3Between (a.sky.getD i (0, 0, 0)) (b.sky.getD i (0, 0, 0)) (c.sky.getD i (0, 0, 0))) ∧
  (∀ i, i < a.fog.length →
    c4Between (a.fog.getD i (0, 0, 0, 0)) (b.fog.getD i (0, 0, 0, 0)) (c.fog.getD i (0, 0, 0, 0))) ∧
  chanBetween a.treeHueMin b.treeHueMin c.treeHueMin ∧
  chanBetween a.treeHueMax b.treeHueMax c.treeHueMax ∧
  chanBetween a.treeSat b.treeSat c.treeSat ∧
  chanBetween a.treeLightMin b.treeLightMin c.treeLightMin ∧
  chanBetween a.treeLightMax b.treeLightMax c.treeLightMax

/-- The all-zero PRNG stream, a valid stream for concrete witnesses. -/
def zeroStream : ℕ → ℚ := fun _ => 0

/-- A freshly built tree shape at the minimum depth `Z_SPACING` (row 0,
zero jitter), used for concrete traces. -/
def tr0c : TreeRec :=
  { x := 0, z := 4.8, trunkW := 1, hueRng := 0, lit := 1, fade := 1,
    recycleWait := 0, solidColors := [], gradStops := [] }

/-- Thirty-nine frame deltas of 48 ms each (the frame clamp maximum), the
realistic tick sequence of the depth counterexample. -/
def dts39 : List ℚ :=
  [48, 48, 48, 48, 48, 48, 48, 48, 48, 48, 48, 48, 48,
   48, 48, 48, 48, 48, 48, 48, 48, 48, 48, 48, 48, 48,
   48, 48, 48, 48, 48, 48, 48, 48, 48, 48, 48, 48, 48]

/-- A tree just above the near threshold with a small accumulated wait. -/
def tr5c : TreeRec :=
  { x := 0, z := 1.2, trunkW := 1, hueRng := 0, lit := 1, fade := 1,
    recycleWait := 5, solidColors := [], gradStops := [] }

/-- A mid-range tree straight ahead of the camera, drawn at full alpha. -/
def trWc : TreeRec :=
  { x := 0, z := 10, trunkW := 1, hueRng := 0, lit := 1, fade := 1,
    recycleWait := 0, solidColors := [], gradStops := [] }

/-- The draw data `drawTree 0 100 1 0 100 trWc` produces. -/
def drawWc : DrawData :=
  { rz := 10, depth := 45 / 47, alpha := 1, dIdx := 10,
    screenX := 50, baseW := 10, vx := 50, topW := 0.6 }

/-- A second theme differing from the default in several fields. -/
def THEME_B : Theme :=
  { DEFAULT_THEME with treeHueMin := 10, treeHueMax := 80, treeSat := 100,
                       treeLightMin := 20, treeLightMax := 90 }

/-- An idle engine state (no transition in progress) over an 80×50
viewport. -/
def eng0 : Engine :=
  { transitioning := false, themeStartT := -1, themeFrom := DEFAULT_THEME,
    themeTo := DEFAULT_THEME, cur := DEFAULT_THEME, trees := [], lastT := 0,
    W := 80, H := 50, fov := 124, topY := -6, bottomY := 56,
    solidRebuilds := 0, gradRebuilds := 0, sceneRebuilds := 0 }

/-- An engine state in the middle of a theme transition that started at
time 0. -/
def engT : Engine :=
  { transitioning := true, themeStartT := 0, themeFrom := DEFAULT_THEME,
    themeTo := THEME_B, cur := DEFAULT_THEME, trees := [], lastT := 0,
    W := 80, H := 50, fov := 124, topY := -6, bottomY := 56,
    solidRebuilds := 0, gradRebuilds := 0, sceneRebuilds := 0 }

/- ═══════════════════════════════════════════════════════════════════════════
   Helper lemmas
   ═══════════════════════════════════════════════════════════════════════════ -/

theorem rowsPerCol_eq : rowsPerCol = 12 := by
  have h : ⌈DEPTH_FAR / Z_SPACING⌉ = 12 := by
    rw [Int.ceil_eq_iff]
    constructor <;> norm_num [DEPTH_FAR, Z_SPACING]
  rw [rowsPerCol, h]
  rfl

theorem clamp01_eq_self {v : ℚ} (h0 : 0 ≤ v) (h1 : v ≤ 1) : clamp01 v = v := by
  unfold clamp01
  rw [if_neg (by linarith), if_neg (by linarith)]

theorem clamp01_eq_one {v : ℚ} (h : 1 ≤ v) : clamp01 v = 1 := by
  unfold clamp01
  rcases lt_or_le 1 v with h2 | h2
  · rw [if_neg (by linarith), if_pos h2]
  · rw [if_neg (by linarith), if_neg (by linarith), le_antisymm h2 h]

theorem clamp01_nonneg (v : ℚ) : 0 ≤ clamp01 v := by
  unfold clamp01
  split_ifs <;> linarith

theorem clamp01_le_one (v : ℚ) : clamp01 v ≤ 1 := by
  unfold clamp01
  split_ifs <;> linarith

theorem easeInOut01_one : easeInOut01 1 = 1 := by norm_num [easeInOut01]

theorem easeInOut01_zero : easeInOut01 0 = 0 := by norm_num [easeInOut01]

theorem easeInOut01_nonneg {u : ℚ} (h0 : 0 ≤ u) (h1 : u ≤ 1) : 0 ≤ easeInOut01 u := by
  unfold easeInOut01
  nlinarith [sq_nonneg u]

theorem easeInOut01_le_one {u : ℚ} (h0 : 0 ≤ u) (h1 : u ≤ 1) : easeInOut01 u ≤ 1 := by
  unfold easeInOut01
  nlinarith [sq_nonneg (1 - u)]

theorem easeInOut01_lt_one {u : ℚ} (h0 : 0 ≤ u) (h1 : u < 1) : easeInOut01 u < 1 := by
  unfold easeInOut01
  nlinarith [sq_nonneg (1 - u), sq_nonneg u]

theorem easeInOut01_strictMono {a b : ℚ} (h0 : 0 ≤ a) (hab : a < b) (hb : b ≤ 1) :
    easeInOut01 a < easeInOut01 b := by
  unfold easeInOut01
  have hb0 : 0 < b := lt_of_le_of_lt h0 hab
  have ha1 : a < 1 := lt_of_lt_of_le hab hb
  have hg : 0 < 3 * (a + b) - 2 * (a ^ 2 + a * b + b ^ 2) := by
    nlinarith [mul_pos hb0 (sub_pos.2 ha1), mul_nonneg h0 (sub_nonneg.2 ha1.le),
      mul_nonneg h0 (sub_nonneg.2 hb), mul_nonneg hb0.le (sub_nonneg.2 hb)]
  nlinarith [mul_pos (sub_pos.2 hab) hg]

theorem buildCols_step (x : ℚ) (hx : x ≤ HALF_W + 0.01) :
    buildCols x = (x :: if 0 < x then [-x] else []) ++ buildCols (x + X_SPACING) := by
  rw [buildCols.eq_def, dif_pos hx]

theorem buildCols_stop (x : ℚ) (hx : ¬ x ≤ HALF_W + 0.01) : buildCols x = [] := by
  rw [buildCols.eq_def, dif_neg hx]

theorem colsList_eq :
    colsList = [0, 3.6, -3.6, 7.2, -7.2, 10.8, -10.8, 14.4, -14.4, 18, -18] := by
  have h6 : buildCols (108 / 5) = [] := buildCols_stop _ (by norm_num [HALF_W])
  have h5 : buildCols 18 = [18, -18] := by
    rw [buildCols_step _ (by norm_num [HALF_W])]
    norm_num [X_SPACING, h6]
  have h4 : buildCols (72 / 5) = [72 / 5, -(72 / 5), 18, -18] := by
    rw [buildCols_step _ (by norm_num [HALF_W])]
    norm_num [X_SPACING, h5]
  have h3 : buildCols (54 / 5) = [54 / 5, -(54 / 5), 72 / 5, -(72 / 5), 18, -18] := by
    rw [buildCols_step _ (by norm_num [HALF_W])]
    norm_num [X_SPACING, h4]
  have h2 : buildCols (36 / 5)
      = [36 / 5, -(36 / 5), 54 / 5, -(54 / 5), 72 / 5, -(72 / 5), 18, -18] := by
    rw [buildCols_step _ (by norm_num [HALF_W])]
    norm_num [X_SPACING, h3]
  have h1 : buildCols (18 / 5)
      = [18 / 5, -(18 / 5), 36 / 5, -(36 / 5), 54 / 5, -(54 / 5), 72 / 5, -(72 / 5), 18, -18] := by
    rw [buildCols_step _ (by norm_num [HALF_W])]
    norm_num [X_SPACING, h2]
  rw [colsList, buildCols_step _ (by norm_num [HALF_W])]
  norm_num [X_SPACING, h1]

/- ═══════════ C2: cache-rebuild triggers ═══════════ -/

/-- C2 counterexample.  In the idle state `eng0` (no theme transition in
progress, clip lines for height 50) a resize to 100×50 changes neither clip
line yet rebuilds both the per-tree solid colours and the per-tree
gradients — refuting that solid-colour arrays are never rebuilt by a resize
alone, and refuting the only-if direction of the gradient-rebuild claim. -/
theorem c2_counterexample :
    eng0.transitioning = false ∧
    (engineStep (Ev.resize 100 50) eng0).solidRebuilds = eng0.solidRebuilds + 1 ∧
    (engineStep (Ev.resize 100 50) eng0).gradRebuilds = eng0.gradRebuilds + 1 ∧
    (engineStep (Ev.resize 100 50) eng0).topY = eng0.topY ∧
    (engineStep (Ev.resize 100 50) eng0).bottomY = eng0.bottomY := by
  norm_num [engineStep, handleResize, rebuildAllColors, rebuildTreeGradients,
    rebuildTreeColors, buildSceneGradients, eng0]

/-- C2 (amended): per-tree solid-colour arrays and per-tree gradient
objects are rebuilt in lockstep — exactly once on every resize, exactly
once on a tick while a theme transition is in progress, and never on a
tick without an active transition nor on a theme message itself. -/
theorem c2_rebuild_triggers (e : Ev) (s : Engine) :
    (engineStep e s).solidRebuilds = s.solidRebuilds + evRebuilds e s ∧
    (engineStep e s).gradRebuilds = s.gradRebuilds + evRebuilds e s := by
  cases e with
  | tick ts =>
    cases hb : s.transitioning with
    | false =>
      simp [engineStep, frameStep, updateThemeTransition, evRebuilds, hb]
    | true =>
      simp only [engineStep, frameStep, updateThemeTransition, evRebuilds,
        rebuildAllColors, rebuildTreeGradients, rebuildTreeColors, buildSceneGradients]
      rw [if_neg (by simp [hb])]
      split <;> simp
  | resize w h =>
    simp [engineStep, handleResize, evRebuilds, rebuildAllColors,
      rebuildTreeGradients, rebuildTreeColors, buildSceneGradients]
  | theme th ts =>
    simp [engineStep, setThemeTarget, evRebuilds]

/- ═══════════ C5: recycle behaviour of one update ═══════════ -/

/-- C5 counterexample.  The tree `tr5c` starts the update at `z = 1.2`, not
below the near threshold `1.1`, yet after `update` with `dt = 48` its
recycle-wait timer is 53, not 0: the code tests the threshold on the moved
depth `z - SPEED_BASE * dt`, not on the depth at the start of the update. -/
theorem c5_counterexample :
    NEAR_FADE_END_Z ≤ tr5c.z ∧ (treeStep 48 tr5c).recycleWait ≠ 0 := by
  constructor
  · norm_num [tr5c, NEAR_FADE_END_Z]
  · norm_num [treeStep, tr5c, SPEED_BASE, RECYCLE_DELAY_MS]

/-- C5 (amended): in one update, a tree whose moved depth
`z - SPEED_BASE * dt` is below the near threshold and whose accumulated
timer `recycleWait + dt` reaches the recycle delay is advanced by exactly
one row-span cycle `rowsPerCol * Z_SPACING` (applied to the moved depth)
with fade 0 and timer 0; a tree whose moved depth is not below the
threshold gets its timer reset to 0 and only the movement applied. -/
theorem c5_recycle_behavior (tr : TreeRec) (dt : ℚ) (h0 : 0 ≤ dt) :
    (tr.z - SPEED_BASE * dt < 1.1 → RECYCLE_DELAY_MS ≤ tr.recycleWait + dt →
      treeStep dt tr = { tr with z := tr.z - SPEED_BASE * dt + (rowsPerCol : ℚ) * Z_SPACING,
                                 fade := 0, recycleWait := 0 }) ∧
    (¬ tr.z - SPEED_BASE * dt < 1.1 →
      (treeStep dt tr).recycleWait = 0 ∧ (treeStep dt tr).z = tr.z - SPEED_BASE * dt) := by
  constructor
  · intro hz hw
    simp only [treeStep]
    rw [if_pos hz, if_pos hw]
  · intro hz
    simp only [treeStep]
    rw [if_neg hz]
    exact ⟨rfl, rfl⟩

/-- C5 witness: the recycle branch at `tr5c` with `dt = 1000`, and the
reset branch at `tr0c` with `dt = 48`. -/
theorem c5_recycle_behavior_witness :
    (treeStep 1000 tr5c
      = { tr5c with z := tr5c.z - SPEED_BASE * 1000 + (rowsPerCol : ℚ) * Z_SPACING,
                    fade := 0, recycleWait := 0 }) ∧
    ((treeStep 48 tr0c).recycleWait = 0 ∧ (treeStep 48 tr0c).z = tr0c.z - SPEED_BASE * 48) :=
  ⟨(c5_recycle_behavior tr5c 1000 (by norm_num)).1
      (by norm_num [tr5c, SPEED_BASE]) (by norm_num [tr5c, RECYCLE_DELAY_MS]),
   (c5_recycle_behavior tr0c 48 (by norm_num)).2
      (by norm_num [tr0c, SPEED_BASE])⟩

/- ═══════════ C8: theme transition at half duration ═══════════ -/

/-- C8 counterexample.  Advancing the transition of `engT` (from the
default theme to `THEME_B`, started at time 0) to half the duration yields
exactly the naive linear 50% blend, because `easeInOut01 (1/2) = 1/2`; the
two distinct themes show the blend is not degenerate. -/
theorem c8_counterexample :
    (updateThemeTransition 500 engT).cur = lerpTheme DEFAULT_THEME THEME_B 0.5 ∧
    DEFAULT_THEME ≠ THEME_B := by
  constructor
  · norm_num [updateThemeTransition, engT, clamp01, easeInOut01, THEME_DURATION,
      rebuildAllColors, rebuildTreeGradients, rebuildTreeColors, buildSceneGradients]
  · simp [DEFAULT_THEME, THEME_B]

/-- C8 (amended): advancing an active transition to exactly half the
configured duration sets the current snapshot to the eased-midpoint
interpolation `lerpTheme from to (easeInOut01 (1/2))`, and the smoothstep
ease fixes the midpoint, `easeInOut01 (1/2) = 1/2`, so this coincides with
the linear 50% blend. -/
theorem c8_eased_midpoint (s : Engine) (h : s.transitioning = true) :
    (updateThemeTransition (s.themeStartT + THEME_DURATION / 2) s).cur
      = lerpTheme s.themeFrom s.themeTo (easeInOut01 (1 / 2)) ∧
    easeInOut01 (1 / 2) = 1 / 2 := by
  have harg : (s.themeStartT + THEME_DURATION / 2 - s.themeStartT) / THEME_DURATION
      = (1 : ℚ) / 2 := by
    norm_num [THEME_DURATION]
  have hez : easeInOut01 ((1 : ℚ) / 2) = 1 / 2 := by norm_num [easeInOut01]
  refine ⟨?_, hez⟩
  simp only [updateThemeTransition, h, harg, clamp01_eq_self (by norm_num : (0:ℚ) ≤ 1/2)
    (by norm_num : (1:ℚ)/2 ≤ 1), hez]
  rw [if_neg (show ¬(true = false) by simp), if_neg (by norm_num : ¬ (1 : ℚ) ≤ 1 / 2)]
  simp [rebuildAllColors, rebuildTreeGradients, rebuildTreeColors, buildSceneGradients]

/-- C8 witness: the amended statement at the concrete state `engT`. -/
theorem c8_eased_midpoint_witness :
    (updateThemeTransition (engT.themeStartT + THEME_DURATION / 2) engT).cur
      = lerpTheme engT.themeFrom engT.themeTo (easeInOut01 (1 / 2)) ∧
    easeInOut01 (1 / 2) = 1 / 2 :=
  c8_eased_midpoint engT rfl

/- ═══════════ C6: alpha monotonicity ═══════════ -/

/-- C6: with `fade = 1` and a fixed lateral offset `dx` from the camera,
the combined draw alpha strictly increases as `rz` decreases from the far
plane `DEPTH_FAR` to the mid-range point `DEPTH_FAR * 0.82` where the far
fade saturates; on the centerline (`|dx|` inside the center-fade band) it
strictly decreases as `rz` decreases from the near-fade start to the near
plane; and beyond the center-fade band the near-plane decrease does not
apply (alpha is constant there). -/
theorem c6_alpha_monotonicity (dx rz1 rz2 : ℚ) :
    (DEPTH_FAR * 0.82 ≤ rz2 → rz2 < rz1 → rz1 ≤ DEPTH_FAR →
      drawAlpha 1 dx rz1 < drawAlpha 1 dx rz2) ∧
    ((if dx < 0 then -dx else dx) < CENTER_FADE_BAND_X →
      NEAR_FADE_END_Z ≤ rz2 → rz2 < rz1 → rz1 ≤ NEAR_FADE_START_Z →
      drawAlpha 1 dx rz2 < drawAlpha 1 dx rz1) ∧
    (CENTER_FADE_BAND_X ≤ (if dx < 0 then -dx else dx) →
      NEAR_FADE_END_Z ≤ rz2 → rz2 < rz1 → rz1 ≤ NEAR_FADE_START_Z →
      drawAlpha 1 dx rz2 = drawAlpha 1 dx rz1) := by
  have habs : 0 ≤ (if dx < 0 then -dx else dx) := by
    split <;> linarith
  refine ⟨?_, ?_, ?_⟩
  · intro h2 h12 h1
    rw [show DEPTH_FAR * 0.82 = (451 : ℚ) / 10 by norm_num [DEPTH_FAR]] at h2
    rw [show DEPTH_FAR = (55 : ℚ) by norm_num [DEPTH_FAR]] at h1
    have hn1 : clamp01 ((rz1 - NEAR_FADE_END_Z) * NEAR_FADE_INV) = 1 := by
      apply clamp01_eq_one
      rw [show NEAR_FADE_END_Z = (11 : ℚ) / 10 by norm_num [NEAR_FADE_END_Z],
        show NEAR_FADE_INV = (10 : ℚ) / 61 by norm_num [NEAR_FADE_INV, NEAR_FADE_START_Z,
          NEAR_FADE_END_Z]]
      linarith
    have hn2 : clamp01 ((rz2 - NEAR_FADE_END_Z) * NEAR_FADE_INV) = 1 := by
      apply clamp01_eq_one
      rw [show NEAR_FADE_END_Z = (11 : ℚ) / 10 by norm_num [NEAR_FADE_END_Z],
        show NEAR_FADE_INV = (10 : ℚ) / 61 by norm_num [NEAR_FADE_INV, NEAR_FADE_START_Z,
          NEAR_FADE_END_Z]]
      linarith
    have hf1 : clamp01 ((DEPTH_FAR - rz1) * FAR_FADE_INV) = (DEPTH_FAR - rz1) * FAR_FADE_INV := by
      apply clamp01_eq_self <;>
        rw [show DEPTH_FAR = (55 : ℚ) by norm_num [DEPTH_FAR],
          show FAR_FADE_INV = (10 : ℚ) / 99 by norm_num [FAR_FADE_INV, DEPTH_FAR]] <;>
        linarith
    have hf2 : clamp01 ((DEPTH_FAR - rz2) * FAR_FADE_INV) = (DEPTH_FAR - rz2) * FAR_FADE_INV := by
      apply clamp01_eq_self <;>
        rw [show DEPTH_FAR = (55 : ℚ) by norm_num [DEPTH_FAR],
          show FAR_FADE_INV = (10 : ℚ) / 99 by norm_num [FAR_FADE_INV, DEPTH_FAR]] <;>
        linarith
    simp only [drawAlpha, hn1, hn2, hf1, hf2, easeInOut01_one]
    rw [show FAR_FADE_INV = (10 : ℚ) / 99 by norm_num [FAR_FADE_INV, DEPTH_FAR],
      show DEPTH_FAR = (55 : ℚ) by norm_num [DEPTH_FAR]]
    ring_nf
    linarith
  · intro hdx h2 h12 h1
    rw [show CENTER_FADE_BAND_X = (27 : ℚ) / 20 by norm_num [CENTER_FADE_BAND_X]] at hdx
    rw [show NEAR_FADE_END_Z = (11 : ℚ) / 10 by norm_num [NEAR_FADE_END_Z]] at h2
    rw [show NEAR_FADE_START_Z = (36 : ℚ) / 5 by norm_num [NEAR_FADE_START_Z]] at h1
    have hinv : INV_CENTER_FADE = (20 : ℚ) / 27 := by
      norm_num [INV_CENTER_FADE, CENTER_FADE_BAND_X]
    have hske : clamp01 ((if dx < 0 then -dx else dx) * INV_CENTER_FADE)
        = (if dx < 0 then -dx else dx) * INV_CENTER_FADE := by
      apply clamp01_eq_self
      · exact mul_nonneg habs (by rw [hinv]; norm_num)
      · rw [hinv]
        nlinarith
    have hsk1 : easeInOut01 ((if dx < 0 then -dx else dx) * INV_CENTER_FADE) < 1 := by
      apply easeInOut01_lt_one (mul_nonneg habs (by rw [hinv]; norm_num))
      rw [hinv]
      nlinarith
    have hf1 : clamp01 ((DEPTH_FAR - rz1) * FAR_FADE_INV) = 1 := by
      apply clamp01_eq_one
      rw [show DEPTH_FAR = (55 : ℚ) by norm_num [DEPTH_FAR],
        show FAR_FADE_INV = (10 : ℚ) / 99 by norm_num [FAR_FADE_INV, DEPTH_FAR]]
      linarith
    have hf2 : clamp01 ((DEPTH_FAR - rz2) * FAR_FADE_INV) = 1 := by
      apply clamp01_eq_one
      rw [show DEPTH_FAR = (55 : ℚ) by norm_num [DEPTH_FAR],
        show FAR_FADE_INV = (10 : ℚ) / 99 by norm_num [FAR_FADE_INV, DEPTH_FAR]]
      linarith
    have hmm : NEAR_FADE_INV = (10 : ℚ) / 61 := by
      norm_num [NEAR_FADE_INV, NEAR_FADE_START_Z, NEAR_FADE_END_Z]
    have hn1 : clamp01 ((rz1 - NEAR_FADE_END_Z) * NEAR_FADE_INV)
        = (rz1 - NEAR_FADE_END_Z) * NEAR_FADE_INV := by
      apply clamp01_eq_self <;>
        rw [hmm, show NEAR_FADE_END_Z = (11 : ℚ) / 10 by norm_num [NEAR_FADE_END_Z]] <;>
        linarith
    have hn2 : clamp01 ((rz2 - NEAR_FADE_END_Z) * NEAR_FADE_INV)
        = (rz2 - NEAR_FADE_END_Z) * NEAR_FADE_INV := by
      apply clamp01_eq_self <;>
        rw [hmm, show NEAR_FADE_END_Z = (11 : ℚ) / 10 by norm_num [NEAR_FADE_END_Z]] <;>
        linarith
    have hemono : easeInOut01 ((rz2 - NEAR_FADE_END_Z) * NEAR_FADE_INV)
        < easeInOut01 ((rz1 - NEAR_FADE_END_Z) * NEAR_FADE_INV) := by
      apply easeInOut01_strictMono <;>
        rw [hmm, show NEAR_FADE_END_Z = (11 : ℚ) / 10 by norm_num [NEAR_FADE_END_Z]] <;>
        linarith
    simp only [drawAlpha, hske, hf1, hf2, hn1, hn2]
    have hkey := mul_pos (sub_pos.2 hemono) (sub_pos.2 hsk1)
    nlinarith [hkey]
  · intro hdx h2 h12 h1
    rw [show CENTER_FADE_BAND_X = (27 : ℚ) / 20 by norm_num [CENTER_FADE_BAND_X]] at hdx
    rw [show NEAR_FADE_END_Z = (11 : ℚ) / 10 by norm_num [NEAR_FADE_END_Z]] at h2
    rw [show NEAR_FADE_START_Z = (36 : ℚ) / 5 by norm_num [NEAR_FADE_START_Z]] at h1
    have hske : clamp01 ((if dx < 0 then -dx else dx) * INV_CENTER_FADE) = 1 := by
      apply clamp01_eq_one
      rw [show INV_CENTER_FADE = (20 : ℚ) / 27 by norm_num [INV_CENTER_FADE, CENTER_FADE_BAND_X]]
      nlinarith
    have hf1 : clamp01 ((DEPTH_FAR - rz1) * FAR_FADE_INV) = 1 := by
      apply clamp01_eq_one
      rw [show DEPTH_FAR = (55 : ℚ) by norm_num [DEPTH_FAR],
        show FAR_FADE_INV = (10 : ℚ) / 99 by norm_num [FAR_FADE_INV, DEPTH_FAR]]
      linarith
    have hf2 : clamp01 ((DEPTH_FAR - rz2) * FAR_FADE_INV) = 1 := by
      apply clamp01_eq_one
      rw [show DEPTH_FAR = (55 : ℚ) by norm_num [DEPTH_FAR],
        show FAR_FADE_INV = (10 : ℚ) / 99 by norm_num [FAR_FADE_INV, DEPTH_FAR]]
      linarith
    simp only [drawAlpha, hske, hf1, hf2, easeInOut01_one]
    ring

/-- C6 witness: the three monotonicity regimes at concrete depths — far
fade between 54 and 46 on any offset, near fade between 6 and 2 on the
centerline, and constancy between 6 and 2 at offset 2 outside the band. -/
theorem c6_alpha_monotonicity_witness :
    drawAlpha 1 0 54 < drawAlpha 1 0 46 ∧
    drawAlpha 1 0 2 < drawAlpha 1 0 6 ∧
    drawAlpha 1 2 2 = drawAlpha 1 2 6 :=
  ⟨(c6_alpha_monotonicity 0 54 46).1
      (by norm_num [DEPTH_FAR]) (by norm_num) (by norm_num [DEPTH_FAR]),
   (c6_alpha_monotonicity 0 6 2).2.1
      (by norm_num [CENTER_FADE_BAND_X]) (by norm_num [NEAR_FADE_END_Z])
      (by norm_num) (by norm_num [NEAR_FADE_START_Z]),
   (c6_alpha_monotonicity 2 6 2).2.2
      (by norm_num [CENTER_FADE_BAND_X]) (by norm_num [NEAR_FADE_END_Z])
      (by norm_num) (by norm_num [NEAR_FADE_START_Z])⟩

/- ═══════════ C10: drawTree safety ═══════════ -/

/-- C10: whenever `drawTree` reaches its draw calls (returns `some`), the
depth it divided by satisfies `rz > 0.5` (so `fov / rz` is a division by a
positive number), and the quantised colour index
`(depth * (DEPTH_QUANT - 1) + 0.5) | 0` lies in `[0, DEPTH_QUANT - 1]`,
so the `solidColors` lookup of a pool tree (an array of `DEPTH_QUANT`
entries) is in range. -/
theorem c10_draw_safety (camx fov yawCos yawSin Wv : ℚ) (t : TreeRec) (d : DrawData)
    (h : drawTree camx fov yawCos yawSin Wv t = some d) :
    1 / 2 < d.rz ∧ 0 ≤ d.dIdx ∧ d.dIdx < (DEPTH_QUANT : ℤ) := by
  by_cases h1 : t.x * yawSin + t.z * yawCos ≤ 0.5
  · rw [drawTree, if_pos h1] at h
    exact Option.noConfusion h
  · simp only [drawTree, if_neg h1] at h
    have hrz : 1 / 2 < t.x * yawSin + t.z * yawCos := by
      push_neg at h1
      linarith
    have hq0 : 0 ≤ clamp01 (1 - (t.x * yawSin + t.z * yawCos - DEPTH_NEAR) * INV_DEPTH_RANGE) :=
      clamp01_nonneg _
    have hq1 : clamp01 (1 - (t.x * yawSin + t.z * yawCos - DEPTH_NEAR) * INV_DEPTH_RANGE) ≤ 1 :=
      clamp01_le_one _
    split_ifs at h <;>
      first
        | exact Option.noConfusion h
        | · obtain rfl := (Option.some_inj.1 h).symm
            refine ⟨hrz, ?_, ?_⟩
            · apply Int.le_floor.2
              push_cast
              rw [show ((DEPTH_QUANT : ℚ) - 1) = 10 by norm_num [DEPTH_QUANT]]
              linarith [hq0]
            · apply Int.floor_lt.2
              push_cast
              rw [show ((DEPTH_QUANT : ℚ) - 1) = 10 by norm_num [DEPTH_QUANT],
                show ((DEPTH_QUANT : ℚ)) = 11 by norm_num [DEPTH_QUANT]]
              linarith [hq1]

/-- C10 witness: `drawTree` at a mid-range centerline tree produces the
draw data `drawWc`, whose divisor and colour index satisfy the bounds. -/
theorem c10_draw_safety_witness :
    1 / 2 < drawWc.rz ∧ 0 ≤ drawWc.dIdx ∧ drawWc.dIdx < (DEPTH_QUANT : ℤ) :=
  c10_draw_safety 0 100 1 0 100 trWc drawWc
    (by norm_num [drawTree, trWc, drawWc, drawAlpha, clamp01, easeInOut01, DEPTH_NEAR,
      DEPTH_FAR, INV_DEPTH_RANGE, FAR_FADE_INV, NEAR_FADE_END_Z, NEAR_FADE_INV,
      INV_CENTER_FADE, VP_DIVISOR, DEPTH_QUANT, NEAR_FADE_START_Z, CENTER_FADE_BAND_X,
      Int.floor_eq_iff])

/- ═══════════ C3: the insertion sort refines a full stable sort ═══════════ -/

theorem orderedInsZ_perm (key : TreeRec) :
    ∀ l, List.Perm (orderedInsZ key l) (key :: l) := by
  intro l
  induction l with
  | nil => exact List.Perm.refl _
  | cons b t ih =>
    unfold orderedInsZ
    split_ifs with h
    · exact List.Perm.refl _
    · exact (ih.cons b).trans (List.Perm.swap key b t)

theorem orderedInsZ_sorted (key : TreeRec) :
    ∀ l, List.Sorted zGE l → List.Sorted zGE (orderedInsZ key l) := by
  intro l
  induction l with
  | nil =>
    intro _
    simp [orderedInsZ]
  | cons b t ih =>
    intro hs
    rw [List.sorted_cons] at hs
    unfold orderedInsZ
    split_ifs with h
    · rw [List.sorted_cons]
      refine ⟨?_, List.sorted_cons.2 hs⟩
      intro c hc
      rcases List.mem_cons.1 hc with rfl | hct
      · exact le_of_lt h
      · exact le_trans (hs.1 c hct) (le_of_lt h)
    · rw [List.sorted_cons]
      refine ⟨?_, ih hs.2⟩
      intro c hc
      rcases List.mem_cons.1 ((orderedInsZ_perm key t).mem_iff.1 hc) with rfl | hct
      · exact not_lt.1 h
      · exact hs.1 c hct

theorem orderedInsZ_append_lt (key b : TreeRec) (hb : b.z < key.z) :
    ∀ l, orderedInsZ key (l ++ [b]) = orderedInsZ key l ++ [b] := by
  intro l
  induction l with
  | nil => simp [orderedInsZ, hb]
  | cons c t ih =>
    simp only [List.cons_append, orderedInsZ, List.append_eq]
    split_ifs with h
    · simp
    · rw [ih]
      simp

theorem orderedInsZ_eq_append (key : TreeRec) :
    ∀ l, (∀ c ∈ l, ¬ c.z < key.z) → orderedInsZ key l = l ++ [key] := by
  intro l
  induction l with
  | nil => intro _; rfl
  | cons c t ih =>
    intro hall
    unfold orderedInsZ
    rw [if_neg (hall c (List.mem_cons_self c t)), ih fun d hd => hall d (List.mem_cons_of_mem c hd)]
    simp

theorem insertShift_eq_orderedInsZ (key : TreeRec) :
    ∀ pre, List.Sorted zGE pre → insertShift key pre = orderedInsZ key pre := by
  intro pre
  induction pre using List.reverseRecOn with
  | nil => intro _; rfl
  | append_singleton l b ih =>
    intro hs
    have hsl : List.Sorted zGE l := hs.sublist (List.sublist_append_left l [b])
    have hlb : ∀ c ∈ l, b.z ≤ c.z := by
      intro c hc
      exact (List.pairwise_append.1 hs).2.2 c hc b (List.mem_singleton_self b)
    unfold insertShift
    rw [List.reverse_append, List.reverse_singleton, List.singleton_append]
    simp only [insRevAux]
    split_ifs with h
    · rw [List.reverse_cons]
      have hrw : (insRevAux key l.reverse).reverse = insertShift key l := rfl
      rw [hrw, ih hsl, orderedInsZ_append_lt key b h l]
    · rw [orderedInsZ_eq_append key (l ++ [b]) ?hall]
      · simp
      case hall =>
        intro c hc
        rcases List.mem_append.1 hc with hcl | hcb
        · exact not_lt.2 (le_trans (not_lt.1 h) (hlb c hcl))
        · rw [List.mem_singleton.1 hcb]
          exact h

theorem orderedInsert_orderedInsZ_comm (a b : TreeRec) :
    ∀ s, List.orderedInsert zGE b (orderedInsZ a s)
      = orderedInsZ a (List.orderedInsert zGE b s) := by
  intro s
  induction s with
  | nil =>
    simp only [orderedInsZ, List.orderedInsert]
    split_ifs with h1 h2 h3 <;> first
      | rfl
      | (exfalso; revert h1 h2; simp only [zGE, not_le, not_lt]; intros; linarith)
      | (exfalso; revert h1 h3; simp only [zGE, not_le, not_lt]; intros; linarith)
  | cons c t ih =>
    by_cases h1 : c.z < a.z
    · by_cases h2 : zGE b c
      · by_cases h3 : zGE b a
        · simp only [orderedInsZ, List.orderedInsert, if_pos h1, if_pos h2, if_pos h3,
            if_neg (show ¬ b.z < a.z from not_lt.2 h3)]
        · simp only [orderedInsZ, List.orderedInsert, if_pos h1, if_pos h2, if_neg h3,
            if_pos (show b.z < a.z from not_le.1 h3)]
      · by_cases h3 : zGE b a
        · exact absurd (le_trans (le_of_lt h1) h3) h2
        · simp only [orderedInsZ, List.orderedInsert, if_pos h1, if_neg h2, if_neg h3]
    · by_cases h2 : zGE b c
      · have hba : ¬ b.z < a.z := not_lt.2 (le_trans (not_lt.1 h1) h2)
        simp only [orderedInsZ, List.orderedInsert, if_neg h1, if_pos h2, if_neg hba]
      · simp only [orderedInsZ, List.orderedInsert, if_neg h1, if_neg h2, ih]

theorem insertionSort_append_singleton (a : TreeRec) :
    ∀ l, List.insertionSort zGE (l ++ [a]) = orderedInsZ a (List.insertionSort zGE l) := by
  intro l
  induction l with
  | nil => simp [List.insertionSort, orderedInsZ, List.orderedInsert]
  | cons c t ih =>
    rw [List.cons_append]
    simp only [List.insertionSort]
    rw [ih, orderedInsert_orderedInsZ_comm]

theorem foldl_orderedInsZ_eq :
    ∀ l : List TreeRec,
      l.foldl (fun acc key => orderedInsZ key acc) [] = List.insertionSort zGE l := by
  intro l
  induction l using List.reverseRecOn with
  | nil => rfl
  | append_singleton t a ih =>
    rw [List.foldl_append, insertionSort_append_singleton]
    simp [ih]

theorem foldl_insertShift_eq :
    ∀ (l : List TreeRec) (acc : List TreeRec), List.Sorted zGE acc →
      l.foldl (fun acc key => insertShift key acc) acc
        = l.foldl (fun acc key => orderedInsZ key acc) acc := by
  intro l
  induction l with
  | nil => intro acc _; rfl
  | cons c t ih =>
    intro acc hacc
    simp only [List.foldl_cons]
    rw [insertShift_eq_orderedInsZ c acc hacc]
    exact ih _ (orderedInsZ_sorted c acc hacc)

theorem sortByZDesc_eq_insertionSort (arr : List TreeRec) :
    sortByZDesc arr = List.insertionSort zGE arr := by
  rw [sortByZDesc, foldl_insertShift_eq arr [] (by simp), foldl_orderedInsZ_eq]

theorem sortByZDesc_perm (arr : List TreeRec) : List.Perm (sortByZDesc arr) arr := by
  rw [sortByZDesc_eq_insertionSort]
  exact List.perm_insertionSort zGE arr

theorem sortByZDesc_sorted (arr : List TreeRec) : List.Sorted zGE (sortByZDesc arr) := by
  rw [sortByZDesc_eq_insertionSort]
  exact List.sorted_insertionSort zGE arr

/-- C3: `sortByZDesc` computes exactly the full stable comparison sort of
the array under the descending comparator `(a, b) => b.z - a.z` — here
`List.insertionSort zGE`, the canonical stable sort by the total relation
`zGE a b = (b.z ≤ a.z)`, which keeps earlier elements before later
elements of equal `z` — and its result is a permutation of the input. -/
theorem c3_sort_refinement (arr : List TreeRec) :
    sortByZDesc arr = List.insertionSort zGE arr ∧
    List.Perm (sortByZDesc arr) arr :=
  ⟨sortByZDesc_eq_insertionSort arr, sortByZDesc_perm arr⟩

/- ═══════════ C7: theme interpolation bounds ═══════════ -/

theorem zipWith_left_of_eq {α : Type} (f : α → α → α) (hf : ∀ x y, f x y = x) :
    ∀ l1 l2 : List α, l1.length ≤ l2.length → List.zipWith f l1 l2 = l1 := by
  intro l1
  induction l1 with
  | nil => intro l2 _; rfl
  | cons x t ih =>
    intro l2 hl
    cases l2 with
    | nil => simp at hl
    | cons y t2 =>
      simp only [List.zipWith, hf]
      rw [ih t2 (by simpa using hl)]

theorem zipWith_right_of_eq {α : Type} (f : α → α → α) (hf : ∀ x y, f x y = y) :
    ∀ l1 l2 : List α, l1.length = l2.length → List.zipWith f l1 l2 = l2 := by
  intro l1
  induction l1 with
  | nil =>
    intro l2 hl
    cases l2 with
    | nil => rfl
    | cons y t2 => simp at hl
  | cons x t ih =>
    intro l2 hl
    cases l2 with
    | nil => simp at hl
    | cons y t2 =>
      simp only [List.zipWith, hf]
      rw [ih t2 (by simpa using hl)]

theorem getD_zipWith {α : Type} (f : α → α → α) (d : α) :
    ∀ (l1 l2 : List α) (i : ℕ), i < l1.length → i < l2.length →
      (List.zipWith f l1 l2).getD i d = f (l1.getD i d) (l2.getD i d) := by
  intro l1
  induction l1 with
  | nil => intro l2 i hi _; simp at hi
  | cons x t ih =>
    intro l2 i hi1 hi2
    cases l2 with
    | nil => simp at hi2
    | cons y t2 =>
      cases i with
      | zero => simp [List.zipWith]
      | succ j =>
        simp only [List.zipWith, List.getD_cons_succ]
        exact ih t2 j (by simpa using hi1) (by simpa using hi2)

theorem lerpC3_zero (x y : Color3) : lerpC3 0 x y = x := by
  simp [lerpC3]

theorem lerpC3_one (x y : Color3) : lerpC3 1 x y = y := by
  obtain ⟨y1, y2, y3⟩ := y
  simp only [lerpC3, Prod.mk.injEq]
  refine ⟨by ring, by ring, by ring⟩

theorem lerpC4_zero (x y : Color4) : lerpC4 0 x y = x := by
  simp [lerpC4]

theorem lerpC4_one (x y : Color4) : lerpC4 1 x y = y := by
  obtain ⟨y1, y2, y3, y4⟩ := y
  simp only [lerpC4, Prod.mk.injEq]
  refine ⟨by ring, by ring, by ring, by ring⟩

theorem lerp_chanBetween {t : ℚ} (h0 : 0 ≤ t) (h1 : t ≤ 1) (x y : ℚ) :
    chanBetween x y (x + (y - x) * t) := by
  rcases le_total x y with h | h
  · constructor
    · rw [min_eq_left h]
      nlinarith [mul_nonneg (sub_nonneg.2 h) h0]
    · rw [max_eq_right h]
      nlinarith [mul_nonneg (sub_nonneg.2 h) (sub_nonneg.2 h1)]
  · constructor
    · rw [min_eq_right h]
      nlinarith [mul_nonneg (sub_nonneg.2 h) (sub_nonneg.2 h1)]
    · rw [max_eq_left h]
      nlinarith [mul_nonneg (sub_nonneg.2 h) h0]

theorem lerpC3_between {t : ℚ} (h0 : 0 ≤ t) (h1 : t ≤ 1) (x y : Color3) :
    c3Between x y (lerpC3 t x y) :=
  ⟨lerp_chanBetween h0 h1 _ _, lerp_chanBetween h0 h1 _ _, lerp_chanBetween h0 h1 _ _⟩

theorem lerpC4_between {t : ℚ} (h0 : 0 ≤ t) (h1 : t ≤ 1) (x y : Color4) :
    c4Between x y (lerpC4 t x y) :=
  ⟨lerp_chanBetween h0 h1 _ _, lerp_chanBetween h0 h1 _ _, lerp_chanBetween h0 h1 _ _,
   lerp_chanBetween h0 h1 _ _⟩

/-- C7: theme interpolation is exact at the endpoints and bounded in
between — for themes of equal shape, `lerpTheme a b 0 = a` and
`lerpTheme a b 1 = b` on every colour channel (including fog alpha) and
every scalar bound, and for `t` in `[0, 1]` every interpolated value lies
between the corresponding values of `a` and `b` inclusive. -/
theorem c7_lerp_theme_bounds (a b : Theme) (t : ℚ)
    (hsky : a.sky.length = b.sky.length) (hfog : a.fog.length = b.fog.length)
    (h0 : 0 ≤ t) (h1 : t ≤ 1) :
    lerpTheme a b 0 = a ∧ lerpTheme a b 1 = b ∧ themeBetween a b (lerpTheme a b t) := by
  refine ⟨?_, ?_, ?_⟩
  · cases a
    cases b
    simp only [lerpTheme, Theme.mk.injEq]
    exact ⟨zipWith_left_of_eq _ lerpC3_zero _ _ (le_of_eq hsky),
      zipWith_left_of_eq _ lerpC4_zero _ _ (le_of_eq hfog),
      by ring, by ring, by ring, by ring, by ring⟩
  · cases a
    cases b
    simp only [lerpTheme, Theme.mk.injEq]
    exact ⟨zipWith_right_of_eq _ lerpC3_one _ _ hsky,
      zipWith_right_of_eq _ lerpC4_one _ _ hfog,
      by ring, by ring, by ring, by ring, by ring⟩
  · refine ⟨?_, ?_, lerp_chanBetween h0 h1 _ _, lerp_chanBetween h0 h1 _ _,
      lerp_chanBetween h0 h1 _ _, lerp_chanBetween h0 h1 _ _, lerp_chanBetween h0 h1 _ _⟩
    · intro i hi
      have hz : (lerpTheme a b t).sky.getD i (0, 0, 0)
          = lerpC3 t (a.sky.getD i (0, 0, 0)) (b.sky.getD i (0, 0, 0)) := by
        apply getD_zipWith
        · exact hi
        · rw [← hsky]
          exact hi
      rw [hz]
      exact lerpC3_between h0 h1 _ _
    · intro i hi
      have hz : (lerpTheme a b t).fog.getD i (0, 0, 0, 0)
          = lerpC4 t (a.fog.getD i (0, 0, 0, 0)) (b.fog.getD i (0, 0, 0, 0)) := by
        apply getD_zipWith
        · exact hi
        · rw [← hfog]
          exact hi
      rw [hz]
      exact lerpC4_between h0 h1 _ _

/-- C7 witness: the interpolation bounds at the default theme, the target
theme `THEME_B` (same sky and fog shape) and `t = 1/2`. -/
theorem c7_lerp_theme_bounds_witness :
    lerpTheme DEFAULT_THEME THEME_B 0 = DEFAULT_THEME ∧
    lerpTheme DEFAULT_THEME THEME_B 1 = THEME_B ∧
    themeBetween DEFAULT_THEME THEME_B (lerpTheme DEFAULT_THEME THEME_B (1 / 2)) :=
  c7_lerp_theme_bounds DEFAULT_THEME THEME_B (1 / 2) rfl rfl (by norm_num) (by norm_num)

/- ═══════════ C4: deterministic forest construction ═══════════ -/

theorem buildRows_length (f : ℕ → ℚ) (th : Theme) (cx : ℚ) :
    ∀ (n row idx : ℕ), (buildRows f th cx row idx n).length = n := by
  intro n
  induction n with
  | zero => intro row idx; rfl
  | succ m ih =>
    intro row idx
    simp only [buildRows, List.length_cons, ih]

theorem buildRows_getD (f : ℕ → ℚ) (th : Theme) (cx : ℚ) :
    ∀ (n j row idx : ℕ) (d : TreeRec), j < n →
      (buildRows f th cx row idx n).getD j d
        = mkTree th cx (row + j) (f (idx + 5 * j)) (f (idx + 5 * j + 1))
            (f (idx + 5 * j + 2)) (f (idx + 5 * j + 3)) (f (idx + 5 * j + 4)) := by
  intro n
  induction n with
  | zero => intro j row idx d hj; omega
  | succ m ih =>
    intro j row idx d hj
    cases j with
    | zero => simp [buildRows]
    | succ k =>
      simp only [buildRows, List.getD_cons_succ]
      rw [ih k (row + 1) (idx + 5) d (by omega)]
      have e0 : idx + 5 + 5 * k = idx + 5 * (k + 1) := by ring
      have e1 : row + 1 + k = row + (k + 1) := by ring
      rw [e0, e1]

theorem buildTrees_length (f : ℕ → ℚ) (th : Theme) :
    ∀ (cs : List ℚ) (idx : ℕ), (buildTrees f th cs idx).length = cs.length * rowsPerCol := by
  intro cs
  induction cs with
  | nil => intro idx; simp [buildTrees]
  | cons c cst ih =>
    intro idx
    simp only [buildTrees, List.length_append, buildRows_length, ih, List.length_cons]
    ring

theorem buildTrees_getD (f : ℕ → ℚ) (th : Theme) :
    ∀ (cs : List ℚ) (idx k : ℕ) (d : TreeRec), k < cs.length * rowsPerCol →
      (buildTrees f th cs idx).getD k d
        = mkTree th (cs.getD (k / rowsPerCol) 0) (k % rowsPerCol)
            (f (idx + 5 * k)) (f (idx + 5 * k + 1)) (f (idx + 5 * k + 2))
            (f (idx + 5 * k + 3)) (f (idx + 5 * k + 4)) := by
  intro cs
  induction cs with
  | nil => intro idx k d hk; simp at hk
  | cons c cst ih =>
    intro idx k d hk
    simp only [rowsPerCol_eq] at hk ⊢
    simp only [List.length_cons] at hk
    by_cases hk1 : k < 12
    · rw [buildTrees, rowsPerCol_eq]
      rw [List.getD_append _ _ _ _ (by rw [buildRows_length]; omega : k < (buildRows f th c 0 idx 12).length)]
      rw [buildRows_getD f th c 12 k 0 idx d hk1]
      rw [Nat.div_eq_of_lt hk1, Nat.mod_eq_of_lt hk1]
      simp
    · push_neg at hk1
      rw [buildTrees, rowsPerCol_eq]
      rw [List.getD_append_right _ _ _ _ (by rw [buildRows_length]; omega : (buildRows f th c 0 idx 12).length ≤ k)]
      rw [buildRows_length]
      have ihk : k - 12 < cst.length * rowsPerCol := by
        simp only [rowsPerCol_eq]
        omega
      rw [ih (idx + 5 * 12) (k - 12) d ihk]
      simp only [rowsPerCol_eq]
      have e0 : idx + 5 * 12 + 5 * (k - 12) = idx + 5 * k := by omega
      have e1 : (k - 12) / 12 = k / 12 - 1 := by omega
      have e2 : (k - 12) % 12 = k % 12 := by omega
      have e3 : (c :: cst).getD (k / 12) 0 = cst.getD (k / 12 - 1) 0 := by
        have hsplit : k / 12 = (k / 12 - 1) + 1 := by omega
        conv_lhs => rw [hsplit]
        rw [List.getD_cons_succ]
      rw [e0, e1, e2, e3]

/-- C4: forest generation is a deterministic function of the PRNG stream
and the theme, with the PRNG consumed in a fixed order.  Tree number `k`
of the generation pass (before the final depth sort) is exactly
`mkTree` of column `k / rowsPerCol` and row `k % rowsPerCol`, built from
the five consecutive stream draws `5k .. 5k+4` — in order: x jitter, z
jitter, trunk width, hue, lit.  The pool has exactly
`colsList.length * rowsPerCol` trees, and the seeded `mulberry32` stream
itself always yields values in `[0, 1)`. -/
theorem c4_build_determinism (f : ℕ → ℚ) (th : Theme) (k : ℕ) (d : TreeRec)
    (hk : k < colsList.length * rowsPerCol) :
    (buildTrees f th colsList 0).getD k d
      = mkTree th (colsList.getD (k / rowsPerCol) 0) (k % rowsPerCol)
          (f (5 * k)) (f (5 * k + 1)) (f (5 * k + 2)) (f (5 * k + 3)) (f (5 * k + 4)) ∧
    (buildTrees f th colsList 0).length = colsList.length * rowsPerCol ∧
    streamBounds (mulberryStream FOREST_SEED) := by
  refine ⟨?_, buildTrees_length f th colsList 0, ?_⟩
  · have h := buildTrees_getD f th colsList 0 k d hk
    simpa using h
  · intro n
    have hlt : mulberryScramble (mulberryState FOREST_SEED (n + 1)) < TWO32 :=
      Nat.mod_lt _ (by norm_num [TWO32])
    constructor
    · apply div_nonneg (by positivity) (by norm_num [TWO32])
    · rw [mulberryStream, div_lt_one (by norm_num [TWO32])]
      exact_mod_cast hlt

/- ═══════════ C1 and C9: pool invariants ═══════════ -/

theorem buildRows_mem_init (f : ℕ → ℚ) (th : Theme) (cx : ℚ) (hf : streamBounds f) :
    ∀ (n row idx : ℕ) (tr : TreeRec), tr ∈ buildRows f th cx row idx n →
      tr.recycleWait = 0 ∧ tr.fade = 1 ∧ Z_SPACING ≤ tr.z := by
  intro n
  induction n with
  | zero => intro row idx tr htr; simp [buildRows] at htr
  | succ m ih =>
    intro row idx tr htr
    rcases List.mem_cons.1 htr with rfl | htl
    · refine ⟨rfl, rfl, ?_⟩
      have hr := (hf (idx + 1)).1
      have hc : (0 : ℚ) ≤ (row : ℚ) := Nat.cast_nonneg row
      simp only [mkTree, randSv, Z_SPACING]
      nlinarith
    · exact ih (row + 1) (idx + 5) tr htl

theorem buildTrees_mem_init (f : ℕ → ℚ) (th : Theme) (hf : streamBounds f) :
    ∀ (cs : List ℚ) (idx : ℕ) (tr : TreeRec), tr ∈ buildTrees f th cs idx →
      tr.recycleWait = 0 ∧ tr.fade = 1 ∧ Z_SPACING ≤ tr.z := by
  intro cs
  induction cs with
  | nil => intro idx tr htr; simp [buildTrees] at htr
  | cons c cst ih =>
    intro idx tr htr
    rcases List.mem_append.1 htr with hl | hr
    · exact buildRows_mem_init f th c hf rowsPerCol 0 idx tr hl
    · exact ih (idx + 5 * rowsPerCol) tr hr

theorem buildForestStream_mem_init (f : ℕ → ℚ) (th : Theme) (hf : streamBounds f)
    (tr : TreeRec) (htr : tr ∈ buildForestStream f th) :
    tr.recycleWait = 0 ∧ tr.fade = 1 ∧ Z_SPACING ≤ tr.z := by
  rw [buildForestStream] at htr
  exact buildTrees_mem_init f th hf colsList 0 tr
    ((List.perm_insertionSort zGE _).mem_iff.1 htr)

theorem treeInv_step (tr : TreeRec) (dt : ℚ) (h0 : 0 ≤ dt) (h48 : dt ≤ 48)
    (h : TreeInv tr) : TreeInv (treeStep dt tr) := by
  obtain ⟨hw0, hw1, hz⟩ := h
  rw [NEAR_FADE_END_Z, SPEED_BASE] at hz
  rw [RECYCLE_DELAY_MS] at hw1
  norm_num at hz hw1
  by_cases hlt : tr.z - SPEED_BASE * dt < 1.1
  · have hlt2 := hlt
    rw [SPEED_BASE] at hlt2
    norm_num at hlt2
    by_cases hdel : RECYCLE_DELAY_MS ≤ tr.recycleWait + dt
    · simp only [treeStep]
      rw [if_pos hlt, if_pos hdel]
      refine ⟨le_refl 0, by norm_num [RECYCLE_DELAY_MS], ?_⟩
      show NEAR_FADE_END_Z - SPEED_BASE * (0 + 48)
        < tr.z - SPEED_BASE * dt + (rowsPerCol : ℚ) * Z_SPACING
      rw [rowsPerCol_eq, NEAR_FADE_END_Z, SPEED_BASE, Z_SPACING]
      push_cast
      norm_num
      linarith
    · simp only [treeStep]
      rw [if_pos hlt, if_neg hdel]
      rw [RECYCLE_DELAY_MS] at hdel
      refine ⟨add_nonneg hw0 h0, ?_, ?_⟩
      · show tr.recycleWait + dt < RECYCLE_DELAY_MS
        rw [RECYCLE_DELAY_MS]
        exact not_le.1 hdel
      · show NEAR_FADE_END_Z - SPEED_BASE * (tr.recycleWait + dt + 48)
          < tr.z - SPEED_BASE * dt
        rw [NEAR_FADE_END_Z, SPEED_BASE]
        norm_num
        linarith
  · simp only [treeStep]
    rw [if_neg hlt]
    push_neg at hlt
    rw [SPEED_BASE] at hlt
    norm_num at hlt
    refine ⟨le_refl 0, by norm_num [RECYCLE_DELAY_MS], ?_⟩
    show NEAR_FADE_END_Z - SPEED_BASE * (0 + 48) < tr.z - SPEED_BASE * dt
    rw [NEAR_FADE_END_Z, SPEED_BASE]
    norm_num
    linarith

theorem fade_step (tr : TreeRec) (dt : ℚ) (h0 : 0 ≤ dt)
    (hf0 : 0 ≤ tr.fade) (hf1 : tr.fade ≤ 1) :
    0 ≤ (treeStep dt tr).fade ∧ (treeStep dt tr).fade ≤ 1 := by
  have hbound : 0 ≤ min 1 (tr.fade + dt * 0.0015) ∧ min 1 (tr.fade + dt * 0.0015) ≤ 1 := by
    constructor
    · refine le_min (by norm_num) ?_
      have hdtf : 0 ≤ dt * 0.0015 := by positivity
      linarith
    · exact min_le_left _ _
  by_cases hfl : tr.fade < 1
  · simp only [treeStep, if_pos hfl]
    split_ifs with hlt hdel
    · exact ⟨le_refl 0, by norm_num⟩
    · exact hbound
    · exact hbound
  · simp only [treeStep, if_neg hfl]
    split_ifs with hlt hdel
    · exact ⟨le_refl 0, by norm_num⟩
    · exact ⟨hf0, hf1⟩
    · exact ⟨hf0, hf1⟩

theorem updateTrees_mem (dt : ℚ) (l : List TreeRec) (tr : TreeRec)
    (h : tr ∈ updateTrees dt l) : ∃ s ∈ l, tr = treeStep dt s := by
  rw [updateTrees] at h
  rcases List.mem_map.1 ((sortByZDesc_perm _).mem_iff.1 h) with ⟨s, hsl, hfeq⟩
  exact ⟨s, hsl, hfeq.symm⟩

/-- C1 (amended): trees built by `buildForest` satisfy the recycle-wait
invariant `TreeInv`, and under frame-clamped updates (`0 ≤ dt ≤ 48`, the
clamp `frame` applies) the invariant is preserved and bounds every depth
below by `NEAR_FADE_END_Z - SPEED_BASE * (RECYCLE_DELAY_MS + 48)`
(= -3.092).  The depth is NOT always positive: it goes negative
transiently while a tree dwells below the near threshold waiting for its
recycle delay. -/
theorem c1_z_lower_bound :
    (∀ (f : ℕ → ℚ) (th : Theme) (tr : TreeRec), streamBounds f →
      tr ∈ buildForestStream f th → TreeInv tr) ∧
    (∀ (dts : List ℚ) (pool : List TreeRec),
      (∀ d ∈ dts, 0 ≤ d ∧ d ≤ 48) → (∀ tr ∈ pool, TreeInv tr) →
      ∀ tr ∈ dts.foldl (fun acc d => updateTrees d acc) pool,
        TreeInv tr ∧ NEAR_FADE_END_Z - SPEED_BASE * (RECYCLE_DELAY_MS + 48) < tr.z) := by
  constructor
  · intro f th tr hf htr
    obtain ⟨hw, _, hz⟩ := buildForestStream_mem_init f th hf tr htr
    refine ⟨by rw [hw], by rw [hw]; norm_num [RECYCLE_DELAY_MS], ?_⟩
    rw [hw]
    rw [Z_SPACING] at hz
    norm_num [NEAR_FADE_END_Z, SPEED_BASE]
    linarith
  · intro dts
    induction dts with
    | nil =>
      intro pool _ hpool tr htr
      refine ⟨hpool tr htr, ?_⟩
      obtain ⟨hw0, hw1, hz⟩ := hpool tr htr
      rw [RECYCLE_DELAY_MS] at hw1 ⊢
      rw [NEAR_FADE_END_Z, SPEED_BASE] at hz ⊢
      norm_num at hz ⊢
      linarith
    | cons d dts ih =>
      intro pool hd hpool tr htr
      simp only [List.foldl_cons] at htr
      refine ih (updateTrees d pool) (fun e he => hd e (List.mem_cons_of_mem d he)) ?_ tr htr
      intro s hs
      obtain ⟨s0, hs0, rfl⟩ := updateTrees_mem d pool s hs
      exact treeInv_step s0 d (hd d (List.mem_cons_self d dts)).1
        (hd d (List.mem_cons_self d dts)).2 (hpool s0 hs0)

set_option maxRecDepth 100000 in
/-- C1 counterexample.  A tree built at the minimum initial depth
`z = Z_SPACING` (fade 1, wait 0, like every fresh pool tree), updated 39
times with the frame-clamp maximum `dt = 48` (all `dt ≥ 0`), ends with
`z = -2.688 < 0`: it crossed the near threshold around tick 20 and keeps
moving through the camera while its recycle-wait timer (960 ms at tick 39)
has not yet reached the 1000 ms delay. -/
theorem c1_counterexample :
    tr0c.z = Z_SPACING ∧ tr0c.fade = 1 ∧ tr0c.recycleWait = 0 ∧
    (∀ d ∈ dts39, 0 ≤ d) ∧
    ((dts39.foldl (fun acc d => updateTrees d acc) [tr0c]).getD 0 tr0c).z < 0 := by
  refine ⟨by norm_num [tr0c, Z_SPACING], rfl, rfl, ?_, ?_⟩
  · intro d hd
    simp only [dts39, List.mem_cons, List.not_mem_nil, or_false] at hd
    have h48 : (0 : ℚ) ≤ 48 := by norm_num
    rcases hd with h | h | h | h | h | h | h | h | h | h | h | h | h | h | h | h | h | h | h |
      h | h | h | h | h | h | h | h | h | h | h | h | h | h | h | h | h | h | h | h <;>
      rw [h] <;> exact h48
  · norm_num [dts39, List.foldl, updateTrees, sortByZDesc, insertShift, insRevAux,
      treeStep, tr0c, SPEED_BASE, RECYCLE_DELAY_MS, List.map]

theorem firstTree_mem_zero :
    mkTree DEFAULT_THEME 0 0 0 0 0 0 0 ∈ buildForestStream zeroStream DEFAULT_THEME := by
  have hk : (0 : ℕ) < colsList.length * rowsPerCol := by
    rw [colsList_eq, rowsPerCol_eq]
    norm_num
  have hget := buildTrees_getD zeroStream DEFAULT_THEME colsList 0 0 tr0c hk
  have hlen : 0 < (buildTrees zeroStream DEFAULT_THEME colsList 0).length := by
    rw [buildTrees_length]
    exact hk
  have hmem : (buildTrees zeroStream DEFAULT_THEME colsList 0).getD 0 tr0c
      ∈ buildTrees zeroStream DEFAULT_THEME colsList 0 := by
    rw [List.getD_eq_getElem _ _ hlen]
    exact List.getElem_mem _
  rw [hget] at hmem
  have hsimp : mkTree DEFAULT_THEME (colsList.getD (0 / rowsPerCol) 0) (0 % rowsPerCol)
      (zeroStream (0 + 5 * 0)) (zeroStream (0 + 5 * 0 + 1)) (zeroStream (0 + 5 * 0 + 2))
      (zeroStream (0 + 5 * 0 + 3)) (zeroStream (0 + 5 * 0 + 4))
      = mkTree DEFAULT_THEME 0 0 0 0 0 0 0 := by
    rw [colsList_eq]
    norm_num [zeroStream]
  rw [hsimp] at hmem
  rw [buildForestStream]
  exact (List.perm_insertionSort zGE _).mem_iff.2 hmem

theorem zeroStream_bounds : streamBounds zeroStream :=
  fun _ => ⟨le_refl 0, by norm_num [zeroStream]⟩

/-- C1 witness: the invariant at the first generated tree of the
zero-stream forest, and the invariant plus depth bound after one clamped
update of a singleton pool. -/
theorem c1_z_lower_bound_witness :
    TreeInv (mkTree DEFAULT_THEME 0 0 0 0 0 0 0) ∧
    (TreeInv (treeStep 48 tr0c) ∧
      NEAR_FADE_END_Z - SPEED_BASE * (RECYCLE_DELAY_MS + 48) < (treeStep 48 tr0c).z) := by
  constructor
  · exact c1_z_lower_bound.1 zeroStream DEFAULT_THEME _ zeroStream_bounds firstTree_mem_zero
  · refine c1_z_lower_bound.2 [48] [tr0c] ?_ ?_ (treeStep 48 tr0c) ?_
    · intro d hd
      rcases List.mem_singleton.1 hd with rfl
      norm_num
    · intro tr htr
      rcases List.mem_singleton.1 htr with rfl
      refine ⟨le_refl 0, by norm_num [tr0c, RECYCLE_DELAY_MS], ?_⟩
      norm_num [tr0c, NEAR_FADE_END_Z, SPEED_BASE, RECYCLE_DELAY_MS]
    · simp [List.foldl, updateTrees, sortByZDesc, insertShift, insRevAux, List.map]

/-- C9: every tree's fade scalar stays in `[0, 1]` — trees are built with
fade 1, and updates with `dt ≥ 0` ease fade toward 1 capped at 1 (reset to
0 on recycle), so it never leaves `[0, 1]`. -/
theorem c9_fade_invariant :
    (∀ (f : ℕ → ℚ) (th : Theme) (tr : TreeRec), streamBounds f →
      tr ∈ buildForestStream f th → tr.fade = 1) ∧
    (∀ (dts : List ℚ) (pool : List TreeRec),
      (∀ d ∈ dts, 0 ≤ d) → (∀ tr ∈ pool, 0 ≤ tr.fade ∧ tr.fade ≤ 1) →
      ∀ tr ∈ dts.foldl (fun acc d => updateTrees d acc) pool,
        0 ≤ tr.fade ∧ tr.fade ≤ 1) := by
  constructor
  · intro f th tr hf htr
    exact (buildForestStream_mem_init f th hf tr htr).2.1
  · intro dts
    induction dts with
    | nil =>
      intro pool _ hpool tr htr
      exact hpool tr htr
    | cons d dts ih =>
      intro pool hd hpool tr htr
      simp only [List.foldl_cons] at htr
      refine ih (updateTrees d pool) (fun e he => hd e (List.mem_cons_of_mem d he)) ?_ tr htr
      intro s hs
      obtain ⟨s0, hs0, rfl⟩ := updateTrees_mem d pool s hs
      exact fade_step s0 d (hd d (List.mem_cons_self d dts))
        (hpool s0 hs0).1 (hpool s0 hs0).2

/-- C9 witness: fade 1 at the first generated tree of the zero-stream
forest, and the fade bounds after one update of a singleton pool. -/
theorem c9_fade_invariant_witness :
    (mkTree DEFAULT_THEME 0 0 0 0 0 0 0).fade = 1 ∧
    (0 ≤ (treeStep 16 tr0c).fade ∧ (treeStep 16 tr0c).fade ≤ 1) := by
  constructor
  · exact c9_fade_invariant.1 zeroStream DEFAULT_THEME _ zeroStream_bounds firstTree_mem_zero
  · refine c9_fade_invariant.2 [16] [tr0c] ?_ ?_ (treeStep 16 tr0c) ?_
    · intro d hd
      rcases List.mem_singleton.1 hd with rfl
      norm_num
    · intro tr htr
      rcases List.mem_singleton.1 htr with rfl
      exact ⟨by norm_num [tr0c], by norm_num [tr0c]⟩
    · simp [List.foldl, updateTrees, sortByZDesc, insertShift, insRevAux, List.map]

/-- C4 witness: tree 0 of the generation pass over the seeded stream, the
pool size, and the range of stream draw 0. -/
theorem c4_build_determinism_witness :
    (buildTrees (mulberryStream FOREST_SEED) DEFAULT_THEME colsList 0).getD 0 tr0c
      = mkTree DEFAULT_THEME (colsList.getD 0 0) (0 % rowsPerCol)
          (mulberryStream FOREST_SEED 0) (mulberryStream FOREST_SEED 1)
          (mulberryStream FOREST_SEED 2) (mulberryStream FOREST_SEED 3)
          (mulberryStream FOREST_SEED 4) ∧
    (buildTrees (mulberryStream FOREST_SEED) DEFAULT_THEME colsList 0).length
      = colsList.length * rowsPerCol ∧
    (0 ≤ mulberryStream FOREST_SEED 0 ∧ mulberryStream FOREST_SEED 0 < 1) := by
  have h := c4_build_determinism (mulberryStream FOREST_SEED) DEFAULT_THEME 0 tr0c
    (by rw [colsList_eq, rowsPerCol_eq]; norm_num)
  refine ⟨?_, h.2.1, h.2.2 0⟩
  have h1 := h.1
  simpa using h1

